import Mathlib

/-!
Verification of the Mallob worker-level scheduling core: wire structs
(src/data/job_transfer.cpp), the message queue with fragmentation
(src/comm/message_queue.cpp) and the worker message handlers (worker.cpp).
Machine integers are embedded as Int (4-byte two-complement fields) or Nat
(unsigned fields and raw bit patterns); byte buffers are lists of byte
values in little-endian order, matching the memcpy-based serialization of
the source on a little-endian host.
-/

namespace Mallob

/-! Little-endian byte encoding of fixed-width unsigned values. -/

def toBytes : Nat → Nat → List Nat
  | 0, _ => []
  | w+1, v => v % 256 :: toBytes w (v / 256)

def fromBytes : List Nat → Nat
  | [] => 0
  | b :: bs => b + 256 * fromBytes bs

theorem length_toBytes (w v : Nat) : (toBytes w v).length = w := by
  induction w generalizing v with
  | zero => rfl
  | succ w ih => simp [toBytes, ih]

theorem fromBytes_toBytes (w v : Nat) (h : v < 256 ^ w) : fromBytes (toBytes w v) = v := by
  induction w generalizing v with
  | zero =>
    simp [pow_zero] at h
    simp [toBytes, fromBytes, h]
  | succ w ih =>
    have hpow : 256 ^ (w + 1) = 256 ^ w * 256 := by ring
    rw [hpow] at h
    have hdiv : v / 256 < 256 ^ w := by omega
    simp [toBytes, fromBytes, ih _ hdiv]
    omega

/-- Reading a w-byte little-endian field at a byte offset, as the memcpy
calls of the deserializers do. -/
def readInt (l : List Nat) (off w : Nat) : Nat := fromBytes ((l.drop off).take w)

theorem readInt_here (w v : Nat) (rest : List Nat) (h : v < 256 ^ w) :
    readInt (toBytes w v ++ rest) 0 w = v := by
  unfold readInt
  rw [List.drop_zero, List.take_append_of_le_length (by rw [length_toBytes]),
    List.take_of_length_le (by rw [length_toBytes]), fromBytes_toBytes w v h]

theorem readInt_skip (w' v : Nat) (rest : List Nat) (off w : Nat) :
    readInt (toBytes w' v ++ rest) (w' + off) w = readInt rest off w := by
  unfold readInt
  rw [show w' + off = (toBytes w' v).length + off by rw [length_toBytes], List.drop_append]

/-! Signed 4-byte integers (C int), as bit patterns. -/

def encodeI32 (v : Int) : List Nat := toBytes 4 (v % 4294967296).toNat

def decodeI32 (n : Nat) : Int :=
  if n < 2147483648 then (n : Int) else (n : Int) - 4294967296

def readI32 (l : List Nat) (off : Nat) : Int := decodeI32 (readInt l off 4)

theorem encodeI32_toNat_lt (v : Int) : (v % 4294967296).toNat < 256 ^ 4 := by
  have : (256 : Nat) ^ 4 = 4294967296 := by norm_num
  omega

theorem readI32_here (v : Int) (rest : List Nat)
    (h1 : -2147483648 ≤ v) (h2 : v < 2147483648) :
    readI32 (encodeI32 v ++ rest) 0 = v := by
  unfold readI32 encodeI32
  rw [readInt_here 4 _ rest (encodeI32_toNat_lt v)]
  unfold decodeI32
  split <;> omega

theorem readI32_skip (w' u : Nat) (rest : List Nat) (off : Nat) :
    readI32 (toBytes w' u ++ rest) (w' + off) = readI32 rest off := by
  unfold readI32
  rw [readInt_skip]

theorem length_encodeI32 (v : Int) : (encodeI32 v).length = 4 := by
  unfold encodeI32
  exact length_toBytes 4 _

/-! ### JobRequest (src/data/job_transfer.cpp)

Fields in declaration order of the struct; `timeOfBirth` is a float and is
kept as its raw 4-byte bit pattern, which is what memcpy moves. -/

structure JobRequest where
  jobId : Int
  application : Int
  rootRank : Int
  requestingNodeRank : Int
  requestedNodeIndex : Int
  currentRevision : Int
  lastKnownRevision : Int
  timeOfBirth : Nat
  numHops : Int
  balancingEpoch : Int
  deriving Repr, DecidableEq

namespace JobRequest

/-- JobRequest::serialize: ten fields at fixed offsets, 40 bytes total. -/
def serialize (r : JobRequest) : List Nat :=
  encodeI32 r.jobId ++ encodeI32 r.application ++ encodeI32 r.rootRank ++
  encodeI32 r.requestingNodeRank ++ encodeI32 r.requestedNodeIndex ++
  encodeI32 r.currentRevision ++ encodeI32 r.lastKnownRevision ++
  toBytes 4 r.timeOfBirth ++ encodeI32 r.numHops ++ encodeI32 r.balancingEpoch

/-- JobRequest::deserialize: memcpy reads at the same fixed offsets. -/
def deserialize (packed : List Nat) : JobRequest :=
  { jobId := readI32 packed 0
    application := readI32 packed 4
    rootRank := readI32 packed 8
    requestingNodeRank := readI32 packed 12
    requestedNodeIndex := readI32 packed 16
    currentRevision := readI32 packed 20
    lastKnownRevision := readI32 packed 24
    timeOfBirth := readInt packed 28 4
    numHops := readI32 packed 32
    balancingEpoch := readI32 packed 36 }

/-- In-range side conditions of all fields: each int field fits in a signed
32-bit word, the float bit pattern in an unsigned one. -/
def Wf (r : JobRequest) : Prop :=
  -2147483648 ≤ r.jobId ∧ r.jobId < 2147483648 ∧
  -2147483648 ≤ r.application ∧ r.application < 2147483648 ∧
  -2147483648 ≤ r.rootRank ∧ r.rootRank < 2147483648 ∧
  -2147483648 ≤ r.requestingNodeRank ∧ r.requestingNodeRank < 2147483648 ∧
  -2147483648 ≤ r.requestedNodeIndex ∧ r.requestedNodeIndex < 2147483648 ∧
  -2147483648 ≤ r.currentRevision ∧ r.currentRevision < 2147483648 ∧
  -2147483648 ≤ r.lastKnownRevision ∧ r.lastKnownRevision < 2147483648 ∧
  r.timeOfBirth < 4294967296 ∧
  -2147483648 ≤ r.numHops ∧ r.numHops < 2147483648 ∧
  -2147483648 ≤ r.balancingEpoch ∧ r.balancingEpoch < 2147483648

instance (r : JobRequest) : Decidable (Wf r) := by
  unfold Wf
  infer_instance

/-- JobRequest::operator== of the source: it compares jobId,
requestedNodeIndex, balancingEpoch, currentRevision AND numHops. -/
def beq (a b : JobRequest) : Bool :=
  a.jobId == b.jobId &&
  a.requestedNodeIndex == b.requestedNodeIndex &&
  a.balancingEpoch == b.balancingEpoch &&
  a.currentRevision == b.currentRevision &&
  a.numHops == b.numHops

/-- JobRequest::operator< of the source: lexicographic in
(balancingEpoch, jobId, requestedNodeIndex, currentRevision). -/
def lt (a b : JobRequest) : Bool :=
  if a.balancingEpoch != b.balancingEpoch then a.balancingEpoch < b.balancingEpoch
  else if a.jobId != b.jobId then a.jobId < b.jobId
  else if a.requestedNodeIndex != b.requestedNodeIndex then a.requestedNodeIndex < b.requestedNodeIndex
  else if a.currentRevision != b.currentRevision then a.currentRevision < b.currentRevision
  else false

/-- The four-tuple equality named by the spec. -/
def fourFieldsEq (a b : JobRequest) : Prop :=
  a.balancingEpoch = b.balancingEpoch ∧ a.jobId = b.jobId ∧
  a.requestedNodeIndex = b.requestedNodeIndex ∧ a.currentRevision = b.currentRevision

/-- Lexicographic order on (balancingEpoch, jobId, requestedNodeIndex,
currentRevision), spelled out. -/
def lexLt (a b : JobRequest) : Prop :=
  a.balancingEpoch < b.balancingEpoch ∨
  (a.balancingEpoch = b.balancingEpoch ∧ (a.jobId < b.jobId ∨
    (a.jobId = b.jobId ∧ (a.requestedNodeIndex < b.requestedNodeIndex ∨
      (a.requestedNodeIndex = b.requestedNodeIndex ∧
        a.currentRevision < b.currentRevision)))))

instance (a b : JobRequest) : Decidable (fourFieldsEq a b) := by
  unfold fourFieldsEq
  infer_instance

instance (a b : JobRequest) : Decidable (lexLt a b) := by
  unfold lexLt
  infer_instance

end JobRequest

/-- Claim C1 as stated: equality of the two operators with the four-field
characterisations, for all pairs of requests. -/
def claimC1 : Prop :=
  ∀ a b : JobRequest,
    (JobRequest.beq a b = true ↔ JobRequest.fourFieldsEq a b) ∧
    (JobRequest.lt a b = true ↔ JobRequest.lexLt a b)

/-- Two requests that agree on the four spec fields but differ in numHops. -/
def jrA : JobRequest :=
  { jobId := 1, application := 0, rootRank := 0, requestingNodeRank := 0,
    requestedNodeIndex := 2, currentRevision := 0, lastKnownRevision := 0,
    timeOfBirth := 0, numHops := 0, balancingEpoch := 3 }

def jrB : JobRequest := { jrA with numHops := 1 }

/-- Claim C1, counterexample: at the concrete pair jrA, jrB, which agree on
the four spec fields (balancing epoch, job id, requested index, revision)
and differ only in numHops, operator== of the source returns false, so
equality is NOT determined by the four-field tuple alone. -/
theorem jobRequest_c1_counterexample :
    ¬ ((JobRequest.beq jrA jrB = true ↔ JobRequest.fourFieldsEq jrA jrB) ∧
       (JobRequest.lt jrA jrB = true ↔ JobRequest.lexLt jrA jrB)) := by
  decide

/-- Claim C1 (amended): operator== holds iff the four-field tuple is
pairwise equal AND numHops is equal; operator< is the lexicographic
comparison of (balancingEpoch, jobId, requestedNodeIndex, currentRevision)
in that order, independent of the remaining fields. -/
theorem jobRequest_eq_and_order (a b : JobRequest) :
    (JobRequest.beq a b = true ↔
      (JobRequest.fourFieldsEq a b ∧ a.numHops = b.numHops)) ∧
    (JobRequest.lt a b = true ↔ JobRequest.lexLt a b) := by
  constructor
  · simp only [JobRequest.beq, Bool.and_eq_true, beq_iff_eq, JobRequest.fourFieldsEq]
    tauto
  · simp only [JobRequest.lt, JobRequest.lexLt]
    split_ifs with h1 h2 h3 h4 <;>
      simp_all only [bne_iff_ne, ne_eq, not_not, decide_eq_true_eq, not_false_eq_true,
        false_and, true_and, and_false, and_true, or_false, false_or, lt_self_iff_false] <;>
      omega

/-! Helper lemmas to step over one serialized field at a time. -/

theorem readI32_skip_encode (x : Int) (rest : List Nat) (off : Nat) :
    readI32 (encodeI32 x ++ rest) (4 + off) = readI32 rest off := by
  unfold encodeI32
  exact readI32_skip 4 _ rest off

theorem readInt_skip_encode (x : Int) (rest : List Nat) (off w : Nat) :
    readInt (encodeI32 x ++ rest) (4 + off) w = readInt rest off w := by
  unfold encodeI32
  exact readInt_skip 4 _ rest off w

theorem drop_encode (x : Int) (rest : List Nat) (off : Nat) :
    (encodeI32 x ++ rest).drop (4 + off) = rest.drop off := by
  unfold encodeI32
  rw [show 4 + off = (toBytes 4 ((x % 4294967296).toNat)).length + off by rw [length_toBytes],
    List.drop_append]

theorem readI32_last (v : Int) (h1 : -2147483648 ≤ v) (h2 : v < 2147483648) :
    readI32 (encodeI32 v) 0 = v := by
  have h := readI32_here v [] h1 h2
  rwa [List.append_nil] at h

theorem readInt_last (w v : Nat) (h : v < 256 ^ w) : readInt (toBytes w v) 0 w = v := by
  have hr := readInt_here w v [] h
  rwa [List.append_nil] at hr

theorem drop_bytes_self (w u : Nat) (rest : List Nat) :
    (toBytes w u ++ rest).drop w = rest := by
  have h := List.drop_left (toBytes w u) rest
  rwa [length_toBytes] at h

/-- JobRequest round trip, robust to any bytes appended after the 40-byte
image (OneshotJobRequestRejection appends its bool there). -/
theorem JobRequest.deserialize_serialize_append (r : JobRequest) (h : r.Wf)
    (tail : List Nat) :
    JobRequest.deserialize (r.serialize ++ tail) = r := by
  cases r with
  | mk jobId application rootRank requestingNodeRank requestedNodeIndex
      currentRevision lastKnownRevision timeOfBirth numHops balancingEpoch =>
  simp only [JobRequest.Wf] at h
  obtain ⟨a1, a2, b1, b2, c1, c2, d1, d2, e1, e2, f1, f2, g1, g2, t1, i1, i2, j1, j2⟩ := h
  simp only [JobRequest.serialize, JobRequest.deserialize, List.append_assoc,
    JobRequest.mk.injEq]
  refine ⟨?_, ?_, ?_, ?_, ?_, ?_, ?_, ?_, ?_, ?_⟩
  · exact readI32_here _ _ a1 a2
  · rw [show (4 : Nat) = 4 + 0 from rfl, readI32_skip_encode]
    exact readI32_here _ _ b1 b2
  · rw [show (8 : Nat) = 4 + (4 + 0) from rfl, readI32_skip_encode, readI32_skip_encode]
    exact readI32_here _ _ c1 c2
  · rw [show (12 : Nat) = 4 + (4 + (4 + 0)) from rfl, readI32_skip_encode,
      readI32_skip_encode, readI32_skip_encode]
    exact readI32_here _ _ d1 d2
  · rw [show (16 : Nat) = 4 + (4 + (4 + (4 + 0))) from rfl, readI32_skip_encode,
      readI32_skip_encode, readI32_skip_encode, readI32_skip_encode]
    exact readI32_here _ _ e1 e2
  · rw [show (20 : Nat) = 4 + (4 + (4 + (4 + (4 + 0)))) from rfl, readI32_skip_encode,
      readI32_skip_encode, readI32_skip_encode, readI32_skip_encode, readI32_skip_encode]
    exact readI32_here _ _ f1 f2
  · rw [show (24 : Nat) = 4 + (4 + (4 + (4 + (4 + (4 + 0))))) from rfl,
      readI32_skip_encode, readI32_skip_encode, readI32_skip_encode, readI32_skip_encode,
      readI32_skip_encode, readI32_skip_encode]
    exact readI32_here _ _ g1 g2
  · rw [show (28 : Nat) = 4 + (4 + (4 + (4 + (4 + (4 + (4 + 0)))))) from rfl,
      readInt_skip_encode, readInt_skip_encode, readInt_skip_encode, readInt_skip_encode,
      readInt_skip_encode, readInt_skip_encode, readInt_skip_encode]
    exact readInt_here 4 _ _ (by norm_num; omega)
  · rw [show (32 : Nat) = 4 + (4 + (4 + (4 + (4 + (4 + (4 + (4 + 0))))))) from rfl,
      readI32_skip_encode, readI32_skip_encode, readI32_skip_encode, readI32_skip_encode,
      readI32_skip_encode, readI32_skip_encode, readI32_skip_encode, readI32_skip]
    exact readI32_here _ _ i1 i2
  · rw [show (36 : Nat) = 4 + (4 + (4 + (4 + (4 + (4 + (4 + (4 + (4 + 0)))))))) from rfl,
      readI32_skip_encode, readI32_skip_encode, readI32_skip_encode, readI32_skip_encode,
      readI32_skip_encode, readI32_skip_encode, readI32_skip_encode, readI32_skip,
      readI32_skip_encode]
    exact readI32_here _ _ j1 j2

theorem JobRequest.length_serialize (r : JobRequest) : r.serialize.length = 40 := by
  simp [JobRequest.serialize, length_encodeI32, length_toBytes]

/-! ### Sequences of 4-byte ints (IntVec data, JobMessage payload) -/

def serializeInts : List Int → List Nat
  | [] => []
  | v :: vs => encodeI32 v ++ serializeInts vs

def bytesToInts : List Nat → List Int
  | b0 :: b1 :: b2 :: b3 :: rest => decodeI32 (fromBytes [b0, b1, b2, b3]) :: bytesToInts rest
  | _ => []

def WfInts (l : List Int) : Prop := ∀ v ∈ l, -2147483648 ≤ v ∧ v < 2147483648

instance (l : List Int) : Decidable (WfInts l) := by
  unfold WfInts
  infer_instance

theorem toBytes_four (u : Nat) :
    toBytes 4 u = [u % 256, u / 256 % 256, u / 256 / 256 % 256, u / 256 / 256 / 256 % 256] := rfl

theorem bytesToInts_encode (v : Int) (rest : List Nat)
    (h1 : -2147483648 ≤ v) (h2 : v < 2147483648) :
    bytesToInts (encodeI32 v ++ rest) = v :: bytesToInts rest := by
  have hv := encodeI32_toNat_lt v
  rw [show encodeI32 v = toBytes 4 ((v % 4294967296).toNat) from rfl, toBytes_four,
    List.cons_append, List.cons_append, List.cons_append, List.cons_append, List.nil_append]
  rw [show bytesToInts (((v % 4294967296).toNat % 256) :: ((v % 4294967296).toNat / 256 % 256)
      :: ((v % 4294967296).toNat / 256 / 256 % 256)
      :: ((v % 4294967296).toNat / 256 / 256 / 256 % 256) :: rest)
    = decodeI32 (fromBytes [(v % 4294967296).toNat % 256, (v % 4294967296).toNat / 256 % 256,
        (v % 4294967296).toNat / 256 / 256 % 256,
        (v % 4294967296).toNat / 256 / 256 / 256 % 256]) :: bytesToInts rest from rfl]
  congr 1
  rw [← toBytes_four, fromBytes_toBytes 4 _ hv]
  unfold decodeI32
  split <;> omega

theorem bytesToInts_serializeInts (l : List Int) (h : WfInts l) :
    bytesToInts (serializeInts l) = l := by
  induction l with
  | nil => rfl
  | cons v vs ih =>
    have hv := h v (List.mem_cons_self v vs)
    rw [serializeInts, bytesToInts_encode v _ hv.1 hv.2,
      ih (fun x hx => h x (List.mem_cons_of_mem v hx))]

/-! ### OneshotJobRequestRejection -/

structure OneshotJobRequestRejection where
  request : JobRequest
  isChildStillDormant : Bool
  deriving Repr, DecidableEq

namespace OneshotJobRequestRejection

def serialize (o : OneshotJobRequestRejection) : List Nat :=
  o.request.serialize ++ [if o.isChildStillDormant then 1 else 0]

def deserialize (packed : List Nat) : OneshotJobRequestRejection :=
  { request := JobRequest.deserialize packed
    isChildStillDormant := decide (readInt packed (packed.length - 1) 1 ≠ 0) }

end OneshotJobRequestRejection

theorem oneshot_roundtrip (o : OneshotJobRequestRejection) (h : o.request.Wf) :
    OneshotJobRequestRejection.deserialize o.serialize = o := by
  unfold OneshotJobRequestRejection.serialize OneshotJobRequestRejection.deserialize
  have hlen : (o.request.serialize ++ [if o.isChildStillDormant then 1 else 0]).length = 41 := by
    simp [JobRequest.length_serialize]
  have hdrop : (o.request.serialize ++ [if o.isChildStillDormant then 1 else 0]).drop 40
      = [if o.isChildStillDormant then 1 else 0] := by
    have hd := List.drop_left o.request.serialize [if o.isChildStillDormant then 1 else 0]
    rwa [JobRequest.length_serialize] at hd
  cases o with
  | mk request isChildStillDormant =>
  simp only [OneshotJobRequestRejection.mk.injEq]
  constructor
  · exact JobRequest.deserialize_serialize_append request h _
  · simp only at hlen hdrop
    rw [hlen]
    show decide (readInt _ 40 1 ≠ 0) = isChildStillDormant
    unfold readInt
    rw [hdrop]
    cases isChildStillDormant <;> simp [fromBytes]

/-! ### WorkRequest -/

structure WorkRequest where
  requestingRank : Int
  numHops : Int
  balancingEpoch : Int
  deriving Repr, DecidableEq

namespace WorkRequest

def serialize (w : WorkRequest) : List Nat :=
  encodeI32 w.requestingRank ++ encodeI32 w.numHops ++ encodeI32 w.balancingEpoch

def deserialize (packed : List Nat) : WorkRequest :=
  { requestingRank := readI32 packed 0
    numHops := readI32 packed 4
    balancingEpoch := readI32 packed 8 }

def Wf (w : WorkRequest) : Prop :=
  -2147483648 ≤ w.requestingRank ∧ w.requestingRank < 2147483648 ∧
  -2147483648 ≤ w.numHops ∧ w.numHops < 2147483648 ∧
  -2147483648 ≤ w.balancingEpoch ∧ w.balancingEpoch < 2147483648

instance (w : WorkRequest) : Decidable (Wf w) := by
  unfold Wf
  infer_instance

end WorkRequest

theorem workRequest_roundtrip (w : WorkRequest) (h : w.Wf) :
    WorkRequest.deserialize w.serialize = w := by
  cases w with
  | mk requestingRank numHops balancingEpoch =>
  simp only [WorkRequest.Wf] at h
  obtain ⟨a1, a2, b1, b2, c1, c2⟩ := h
  simp only [WorkRequest.serialize, WorkRequest.deserialize, List.append_assoc,
    WorkRequest.mk.injEq]
  refine ⟨?_, ?_, ?_⟩
  · exact readI32_here _ _ a1 a2
  · rw [show (4 : Nat) = 4 + 0 from rfl, readI32_skip_encode]
    exact readI32_here _ _ b1 b2
  · rw [show (8 : Nat) = 4 + (4 + 0) from rfl, readI32_skip_encode, readI32_skip_encode]
    exact readI32_last _ c1 c2

/-! ### JobSignature: three 4-byte ints followed by a size_t (8 bytes). -/

structure JobSignature where
  jobId : Int
  rootRank : Int
  firstIncludedRevision : Int
  transferSize : Nat
  deriving Repr, DecidableEq

namespace JobSignature

def serialize (s : JobSignature) : List Nat :=
  encodeI32 s.jobId ++ encodeI32 s.rootRank ++ encodeI32 s.firstIncludedRevision ++
  toBytes 8 s.transferSize

def deserialize (packed : List Nat) : JobSignature :=
  { jobId := readI32 packed 0
    rootRank := readI32 packed 4
    firstIncludedRevision := readI32 packed 8
    transferSize := readInt packed 12 8 }

def Wf (s : JobSignature) : Prop :=
  -2147483648 ≤ s.jobId ∧ s.jobId < 2147483648 ∧
  -2147483648 ≤ s.rootRank ∧ s.rootRank < 2147483648 ∧
  -2147483648 ≤ s.firstIncludedRevision ∧ s.firstIncludedRevision < 2147483648 ∧
  s.transferSize < 18446744073709551616

instance (s : JobSignature) : Decidable (Wf s) := by
  unfold Wf
  infer_instance

end JobSignature

theorem jobSignature_roundtrip (s : JobSignature) (h : s.Wf) :
    JobSignature.deserialize s.serialize = s := by
  cases s with
  | mk jobId rootRank firstIncludedRevision transferSize =>
  simp only [JobSignature.Wf] at h
  obtain ⟨a1, a2, b1, b2, c1, c2, t1⟩ := h
  simp only [JobSignature.serialize, JobSignature.deserialize, List.append_assoc,
    JobSignature.mk.injEq]
  refine ⟨?_, ?_, ?_, ?_⟩
  · exact readI32_here _ _ a1 a2
  · rw [show (4 : Nat) = 4 + 0 from rfl, readI32_skip_encode]
    exact readI32_here _ _ b1 b2
  · rw [show (8 : Nat) = 4 + (4 + 0) from rfl, readI32_skip_encode, readI32_skip_encode]
    exact readI32_here _ _ c1 c2
  · rw [show (12 : Nat) = 4 + (4 + (4 + 0)) from rfl, readInt_skip_encode,
      readInt_skip_encode, readInt_skip_encode]
    exact readInt_last 8 _ (by norm_num; omega)

/-! ### JobMessage: four ints, then a checksum of cw bytes (sizeof(Checksum)
is a fixed per-build constant; checksum.hpp is outside the sources, so the
checksum content is kept as its raw bit pattern), then the int payload. -/

structure JobMessage where
  jobId : Int
  revision : Int
  tag : Int
  epoch : Int
  checksum : Nat
  payload : List Int
  deriving Repr, DecidableEq

namespace JobMessage

def serialize (cw : Nat) (m : JobMessage) : List Nat :=
  encodeI32 m.jobId ++ encodeI32 m.revision ++ encodeI32 m.tag ++ encodeI32 m.epoch ++
  toBytes cw m.checksum ++ serializeInts m.payload

def deserialize (cw : Nat) (packed : List Nat) : JobMessage :=
  { jobId := readI32 packed 0
    revision := readI32 packed 4
    tag := readI32 packed 8
    epoch := readI32 packed 12
    checksum := readInt packed 16 cw
    payload := bytesToInts (packed.drop (16 + cw)) }

def Wf (cw : Nat) (m : JobMessage) : Prop :=
  -2147483648 ≤ m.jobId ∧ m.jobId < 2147483648 ∧
  -2147483648 ≤ m.revision ∧ m.revision < 2147483648 ∧
  -2147483648 ≤ m.tag ∧ m.tag < 2147483648 ∧
  -2147483648 ≤ m.epoch ∧ m.epoch < 2147483648 ∧
  m.checksum < 256 ^ cw ∧ WfInts m.payload

instance (cw : Nat) (m : JobMessage) : Decidable (Wf cw m) := by
  unfold Wf
  infer_instance

end JobMessage

theorem jobMessage_roundtrip (cw : Nat) (m : JobMessage) (h : m.Wf cw) :
    JobMessage.deserialize cw (m.serialize cw) = m := by
  cases m with
  | mk jobId revision tag epoch checksum payload =>
  simp only [JobMessage.Wf] at h
  obtain ⟨a1, a2, b1, b2, c1, c2, d1, d2, k1, p1⟩ := h
  simp only [JobMessage.serialize, JobMessage.deserialize, List.append_assoc,
    JobMessage.mk.injEq]
  refine ⟨?_, ?_, ?_, ?_, ?_, ?_⟩
  · exact readI32_here _ _ a1 a2
  · rw [show (4 : Nat) = 4 + 0 from rfl, readI32_skip_encode]
    exact readI32_here _ _ b1 b2
  · rw [show (8 : Nat) = 4 + (4 + 0) from rfl, readI32_skip_encode, readI32_skip_encode]
    exact readI32_here _ _ c1 c2
  · rw [show (12 : Nat) = 4 + (4 + (4 + 0)) from rfl, readI32_skip_encode,
      readI32_skip_encode, readI32_skip_encode]
    exact readI32_here _ _ d1 d2
  · rw [show (16 : Nat) = 4 + (4 + (4 + (4 + 0))) from rfl, readInt_skip_encode,
      readInt_skip_encode, readInt_skip_encode, readInt_skip_encode]
    exact readInt_here cw _ _ k1
  · rw [show 16 + cw = 4 + (4 + (4 + (4 + cw))) by omega, drop_encode, drop_encode,
      drop_encode, drop_encode, drop_bytes_self]
    exact bytesToInts_serializeInts payload p1

/-! ### IntPair and IntVec -/

structure IntPair where
  first : Int
  second : Int
  deriving Repr, DecidableEq

namespace IntPair

def serialize (p : IntPair) : List Nat := encodeI32 p.first ++ encodeI32 p.second

def deserialize (packed : List Nat) : IntPair :=
  { first := readI32 packed 0, second := readI32 packed 4 }

def Wf (p : IntPair) : Prop :=
  -2147483648 ≤ p.first ∧ p.first < 2147483648 ∧
  -2147483648 ≤ p.second ∧ p.second < 2147483648

instance (p : IntPair) : Decidable (Wf p) := by
  unfold Wf
  infer_instance

end IntPair

theorem intPair_roundtrip (p : IntPair) (h : p.Wf) :
    IntPair.deserialize p.serialize = p := by
  cases p with
  | mk first second =>
  simp only [IntPair.Wf] at h
  obtain ⟨a1, a2, b1, b2⟩ := h
  simp only [IntPair.serialize, IntPair.deserialize, IntPair.mk.injEq]
  refine ⟨?_, ?_⟩
  · exact readI32_here _ _ a1 a2
  · rw [show (4 : Nat) = 4 + 0 from rfl, readI32_skip_encode]
    exact readI32_last _ b1 b2

structure IntVec where
  data : List Int
  deriving Repr, DecidableEq

namespace IntVec

def serialize (v : IntVec) : List Nat := serializeInts v.data

def deserialize (packed : List Nat) : IntVec := { data := bytesToInts packed }

end IntVec

theorem intVec_roundtrip (v : IntVec) (h : WfInts v.data) :
    IntVec.deserialize v.serialize = v := by
  cases v with
  | mk data =>
  simp only [IntVec.serialize, IntVec.deserialize, IntVec.mk.injEq]
  exact bytesToInts_serializeInts data h

/-- Claim C2: round trip of every wire struct. For each of JobRequest,
JobSignature, JobMessage (for any fixed checksum width), IntPair, IntVec,
WorkRequest and OneshotJobRequestRejection, deserializing the serialization
of any in-range value recovers the value, every field at its offset. -/
theorem wire_struct_roundtrip :
    (∀ r : JobRequest, r.Wf → JobRequest.deserialize r.serialize = r) ∧
    (∀ s : JobSignature, s.Wf → JobSignature.deserialize s.serialize = s) ∧
    (∀ (cw : Nat) (m : JobMessage), m.Wf cw →
      JobMessage.deserialize cw (m.serialize cw) = m) ∧
    (∀ p : IntPair, p.Wf → IntPair.deserialize p.serialize = p) ∧
    (∀ v : IntVec, WfInts v.data → IntVec.deserialize v.serialize = v) ∧
    (∀ w : WorkRequest, w.Wf → WorkRequest.deserialize w.serialize = w) ∧
    (∀ o : OneshotJobRequestRejection, o.request.Wf →
      OneshotJobRequestRejection.deserialize o.serialize = o) := by
  refine ⟨fun r h => ?_, fun s h => jobSignature_roundtrip s h,
    fun cw m h => jobMessage_roundtrip cw m h, fun p h => intPair_roundtrip p h,
    fun v h => intVec_roundtrip v h, fun w h => workRequest_roundtrip w h,
    fun o h => oneshot_roundtrip o h⟩
  have hr := JobRequest.deserialize_serialize_append r h []
  rwa [List.append_nil] at hr

def jr2 : JobRequest :=
  { jobId := 7, application := 1, rootRank := 3, requestingNodeRank := 5,
    requestedNodeIndex := 2, currentRevision := 1, lastKnownRevision := 0,
    timeOfBirth := 1078530011, numHops := 4, balancingEpoch := -1 }

def sig2 : JobSignature :=
  { jobId := 7, rootRank := 3, firstIncludedRevision := 0, transferSize := 123456789 }

def msg2 : JobMessage :=
  { jobId := 7, revision := 1, tag := 9, epoch := 2, checksum := 99, payload := [1, -2, 3] }

def pair2 : IntPair := { first := -5, second := 6 }

def vec2 : IntVec := { data := [10, -20, 30] }

def wr2 : WorkRequest := { requestingRank := 1, numHops := 2, balancingEpoch := 3 }

def osr2 : OneshotJobRequestRejection := { request := jr2, isChildStillDormant := true }

/-- Claim C2, witness: the round trips evaluated at concrete values of all
seven wire structs (checksum width 16 for the JobMessage). -/
theorem wire_struct_roundtrip_witness :
    JobRequest.deserialize jr2.serialize = jr2 ∧
    JobSignature.deserialize sig2.serialize = sig2 ∧
    JobMessage.deserialize 16 (msg2.serialize 16) = msg2 ∧
    IntPair.deserialize pair2.serialize = pair2 ∧
    IntVec.deserialize vec2.serialize = vec2 ∧
    WorkRequest.deserialize wr2.serialize = wr2 ∧
    OneshotJobRequestRejection.deserialize osr2.serialize = osr2 :=
  ⟨wire_struct_roundtrip.1 jr2 (by decide),
   wire_struct_roundtrip.2.1 sig2 (by decide),
   wire_struct_roundtrip.2.2.1 16 msg2 (by decide),
   wire_struct_roundtrip.2.2.2.1 pair2 (by decide),
   wire_struct_roundtrip.2.2.2.2.1 vec2 (by decide),
   wire_struct_roundtrip.2.2.2.2.2.1 wr2 (by decide),
   wire_struct_roundtrip.2.2.2.2.2.2 osr2 (by decide)⟩

/-! ### MessageQueue (src/comm/message_queue.cpp) -/

structure SendHandle where
  id : Nat
  dest : Nat
  tag : Nat
  data : List Nat
  deriving Repr, DecidableEq

structure MQState where
  myRank : Nat
  runningSendId : Nat
  selfRecvQueue : List SendHandle
  sendQueue : List SendHandle
  deriving Repr, DecidableEq

/-- MessageQueue::send. A handle with the next running id is built; if the
destination is the own rank the handle goes to the self-receive queue and no
fabric operation is issued; otherwise it joins the send queue, for which an
MPI_Isend is issued (whole message or first batch). Returns the id. -/
def MQState.send (s : MQState) (data : List Nat) (dest tag : Nat) : Nat × MQState :=
  let handle : SendHandle := { id := s.runningSendId, dest := dest, tag := tag, data := data }
  let s1 : MQState := { s with runningSendId := s.runningSendId + 1 }
  if dest = s.myRank then
    (handle.id, { s1 with selfRecvQueue := s1.selfRecvQueue ++ [handle] })
  else
    (handle.id, { s1 with sendQueue := s1.sendQueue ++ [handle] })

inductive MQEvent where
  | recvCallback (tag source : Nat) (data : List Nat)
  | sentCallback (id : Nat)
  deriving Repr, DecidableEq

def selfEventsOf : List SendHandle → List MQEvent
  | [] => []
  | sh :: rest =>
    MQEvent.recvCallback sh.tag sh.dest sh.data :: MQEvent.sentCallback sh.id ::
      selfEventsOf rest

/-- MessageQueue::processSelfReceived: up to four handles are moved off the
self-receive queue; for each, the callback registered for its tag is invoked
with source set to the destination (the own rank), then the global sent
callback with the handle id. -/
def MQState.processSelfReceived (s : MQState) : List MQEvent × MQState :=
  (selfEventsOf (s.selfRecvQueue.take 4), { s with selfRecvQueue := s.selfRecvQueue.drop 4 })

/-- Event trace of repeated advance() calls until the self queue is empty. -/
def MQState.drainSelfEvents (s : MQState) : List MQEvent :=
  if h : s.selfRecvQueue = [] then []
  else s.processSelfReceived.1 ++ MQState.drainSelfEvents s.processSelfReceived.2
termination_by s.selfRecvQueue.length
decreasing_by
  simp only [MQState.processSelfReceived, List.length_drop]
  have hpos : 0 < s.selfRecvQueue.length := List.length_pos.mpr h
  omega

theorem selfEventsOf_append (l1 l2 : List SendHandle) :
    selfEventsOf (l1 ++ l2) = selfEventsOf l1 ++ selfEventsOf l2 := by
  induction l1 with
  | nil => simp [selfEventsOf]
  | cons sh rest ih => simp [selfEventsOf, ih]

theorem length_selfEventsOf (l : List SendHandle) :
    (selfEventsOf l).length = 2 * l.length := by
  induction l with
  | nil => simp [selfEventsOf]
  | cons sh rest ih =>
    simp [selfEventsOf, ih]
    omega

theorem drainSelfEvents_eq (s : MQState) :
    s.drainSelfEvents = selfEventsOf s.selfRecvQueue := by
  induction s using MQState.drainSelfEvents.induct with
  | case1 s h =>
    rw [MQState.drainSelfEvents]
    simp [h, selfEventsOf]
  | case2 s h ih =>
    rw [MQState.drainSelfEvents]
    simp only [h, dite_false]
    rw [ih]
    show selfEventsOf (s.selfRecvQueue.take 4) ++ selfEventsOf (s.selfRecvQueue.drop 4)
      = selfEventsOf s.selfRecvQueue
    rw [← selfEventsOf_append, List.take_append_drop]

/-- Claim C4: a send whose destination is the own rank issues no fabric send
(the send queue is unchanged), returns the current running id, and in the
event trace of subsequent advance() calls the callback for the tag fires
with source equal to the own rank and the original payload, immediately
followed by the global sent callback with the returned id. -/
theorem self_message_delivery (s : MQState) (data : List Nat) (tag : Nat) :
    (s.send data s.myRank tag).2.sendQueue = s.sendQueue ∧
    (s.send data s.myRank tag).1 = s.runningSendId ∧
    ((s.send data s.myRank tag).2.drainSelfEvents)[2 * s.selfRecvQueue.length]? =
      some (MQEvent.recvCallback tag s.myRank data) ∧
    ((s.send data s.myRank tag).2.drainSelfEvents)[2 * s.selfRecvQueue.length + 1]? =
      some (MQEvent.sentCallback s.runningSendId) := by
  simp only [MQState.send, ite_true, eq_self_iff_true]
  refine ⟨trivial, trivial, ?_, ?_⟩
  · rw [drainSelfEvents_eq]
    simp only [selfEventsOf_append, selfEventsOf]
    rw [List.getElem?_append_right (by rw [length_selfEventsOf])]
    rw [length_selfEventsOf]
    simp
  · rw [drainSelfEvents_eq]
    simp only [selfEventsOf_append, selfEventsOf]
    rw [List.getElem?_append_right (by rw [length_selfEventsOf]; omega)]
    rw [length_selfEventsOf]
    simp

/-! ### Fragmentation.

The receive side is embedded from MessageQueue::processReceived and
MessageQueue::runFragmentedMessageAssembler. The send-side batch slicing
(SendHandle::getTotalNumBatches, SendHandle::prepareForNextBatch) is
declared in message_queue.hpp, which is not among the sources; it is
modelled from the spec. -/

/-- Modelled from the spec: SendHandle::prepareForNextBatch slices the
payload into batches of maxMsgSize bytes each (message_queue.hpp is not
among the sources). The last batch holds the remaining bytes. -/
def chunksOf (k : Nat) (l : List Nat) : List (List Nat) :=
  if h : k = 0 ∨ l = [] then []
  else l.take k :: chunksOf k (l.drop k)
termination_by l.length
decreasing_by
  push_neg at h
  have hpos : 0 < l.length := List.length_pos.mpr h.2
  simp only [List.length_drop]
  omega

theorem flatten_chunksOf (k : Nat) (hk : k ≠ 0) (l : List Nat) :
    (chunksOf k l).flatten = l := by
  induction l using chunksOf.induct k with
  | case1 l h =>
    rcases h with h | h
    · exact absurd h hk
    · rw [chunksOf]
      simp [h]
  | case2 l h ih =>
    rw [chunksOf, dif_neg h]
    rw [List.flatten_cons, ih, List.take_append_drop]

theorem length_chunksOf_le (k : Nat) (hk : k ≠ 0) (l : List Nat) :
    (chunksOf k l).length ≤ l.length := by
  induction l using chunksOf.induct k with
  | case1 l h =>
    rw [chunksOf, dif_pos h]
    simp
  | case2 l h ih =>
    rw [chunksOf, dif_neg h]
    push_neg at h
    have hpos : 0 < l.length := List.length_pos.mpr h.2
    have hdrop : (l.drop k).length = l.length - k := List.length_drop k l
    simp only [List.length_cons]
    omega

theorem length_chunksOf (k : Nat) (hk : k ≠ 0) (l : List Nat) :
    (chunksOf k l).length = (l.length + k - 1) / k := by
  induction l using chunksOf.induct k with
  | case1 l h =>
    rcases h with h | h
    · exact absurd h hk
    · subst h
      rw [chunksOf, dif_pos (Or.inr rfl)]
      rw [show ([] : List Nat).length + k - 1 = k - 1 from by simp]
      exact (Nat.div_eq_of_lt (by omega)).symm
  | case2 l h ih =>
    rw [chunksOf, dif_neg h]
    push_neg at h
    have hpos : 0 < l.length := List.length_pos.mpr h.2
    have hk0 : 0 < k := Nat.pos_of_ne_zero hk
    simp only [List.length_cons, ih, List.length_drop]
    rw [show l.length + k - 1 = (l.length - 1) + k from by omega, Nat.add_div_right _ hk0]
    rcases Nat.lt_or_ge l.length k with hlt | hge
    · rw [show l.length - k + k - 1 = k - 1 from by omega,
        Nat.div_eq_of_lt (by omega), Nat.div_eq_of_lt (by omega)]
    · rw [show l.length - k + k - 1 = l.length - 1 from by omega]

theorem mem_chunksOf_length_le (k : Nat) (l : List Nat) (c : List Nat)
    (hc : c ∈ chunksOf k l) : c.length ≤ k := by
  induction l using chunksOf.induct k with
  | case1 l h =>
    rw [chunksOf, dif_pos h] at hc
    simp at hc
  | case2 l h ih =>
    rw [chunksOf, dif_neg h] at hc
    rcases List.mem_cons.mp hc with hc | hc
    · rw [hc]
      simpa using List.length_take_le k l
    · exact ih hc

/-- Fragment trailer appended to every batch (12 bytes): send id, batch
index, total number of batches. -/
def trailer (sendId batchIdx total : Nat) : List Nat :=
  toBytes 4 sendId ++ toBytes 4 batchIdx ++ toBytes 4 total

theorem length_trailer (sendId batchIdx total : Nat) :
    (trailer sendId batchIdx total).length = 12 := by
  simp [trailer, length_toBytes]

/-- Modelled from the spec: the wire messages of a fragmented send, batch i
carrying chunk i plus the trailer, under the tag shifted by the fragment
offset (SendHandle::prepareForNextBatch is in message_queue.hpp, outside
the sources). -/
def batchMsgsFrom (tagW sendId total : Nat) : Nat → List (List Nat) → List (Nat × List Nat)
  | _, [] => []
  | i0, c :: rest =>
    (tagW, c ++ trailer sendId i0 total) :: batchMsgsFrom tagW sendId total (i0 + 1) rest

def sendFragmented (offset k sendId tag : Nat) (b : List Nat) : List (Nat × List Nat) :=
  batchMsgsFrom (tag + offset) sendId (chunksOf k b).length 0 (chunksOf k b)

/-- From MessageQueue::processReceived: the three trailer ints are read off
the last 12 bytes of a fragment message. -/
def fragSendId (bytes : List Nat) : Nat := readInt bytes (bytes.length - 12) 4

def fragBatchIdx (bytes : List Nat) : Nat := readInt bytes (bytes.length - 8) 4

def fragTotal (bytes : List Nat) : Nat := readInt bytes (bytes.length - 4) 4

/-- The stored fragment buffer: everything before the 12-byte trailer. -/
def fragPayload (bytes : List Nat) : List Nat := bytes.take (bytes.length - 12)

/-- From MessageQueue::processReceived: one received fragment is stored in
the dataFragments slot of its batch index. -/
def writeFragment (st : Nat → Option (List Nat)) (bytes : List Nat) :
    Nat → Option (List Nat) :=
  fun j => if j = fragBatchIdx bytes then some (fragPayload bytes) else st j

def storeFragments (msgs : List (Nat × List Nat)) : Nat → Option (List Nat) :=
  msgs.foldl (fun st m => writeFragment st m.2) (fun _ => none)

/-- From MessageQueue::runFragmentedMessageAssembler: the stored fragment
buffers are concatenated in batch order. -/
def assembleFragments (st : Nat → Option (List Nat)) (total : Nat) : List Nat :=
  ((List.range total).map (fun i => (st i).getD [])).flatten

theorem readInt_skip_list (pre rest : List Nat) (off w : Nat) :
    readInt (pre ++ rest) (pre.length + off) w = readInt rest off w := by
  unfold readInt
  rw [List.drop_append]

theorem fragSendId_append (c : List Nat) (sid i total : Nat) (hsid : sid < 4294967296) :
    fragSendId (c ++ trailer sid i total) = sid := by
  unfold fragSendId
  rw [List.length_append, length_trailer,
    show c.length + 12 - 12 = c.length + 0 from by omega, readInt_skip_list]
  show readInt (toBytes 4 sid ++ (toBytes 4 i ++ toBytes 4 total)) 0 4 = sid
  exact readInt_here 4 sid _ (by norm_num; omega)

theorem fragBatchIdx_append (c : List Nat) (sid i total : Nat) (hi : i < 4294967296) :
    fragBatchIdx (c ++ trailer sid i total) = i := by
  unfold fragBatchIdx
  rw [List.length_append, length_trailer,
    show c.length + 12 - 8 = c.length + 4 from by omega, readInt_skip_list]
  show readInt (toBytes 4 sid ++ (toBytes 4 i ++ toBytes 4 total)) (4 + 0) 4 = i
  rw [readInt_skip]
  exact readInt_here 4 i _ (by norm_num; omega)

theorem fragTotal_append (c : List Nat) (sid i total : Nat) (ht : total < 4294967296) :
    fragTotal (c ++ trailer sid i total) = total := by
  unfold fragTotal
  rw [List.length_append, length_trailer,
    show c.length + 12 - 4 = c.length + 8 from by omega, readInt_skip_list]
  show readInt (toBytes 4 sid ++ (toBytes 4 i ++ toBytes 4 total)) (4 + (4 + 0)) 4 = total
  rw [readInt_skip, readInt_skip]
  exact readInt_last 4 total (by norm_num; omega)

theorem fragPayload_append (c : List Nat) (sid i total : Nat) :
    fragPayload (c ++ trailer sid i total) = c := by
  unfold fragPayload
  rw [List.length_append, length_trailer,
    show c.length + 12 - 12 = c.length from by omega, List.take_left]

theorem length_batchMsgsFrom (tagW sid total : Nat) (chunks : List (List Nat)) (i0 : Nat) :
    (batchMsgsFrom tagW sid total i0 chunks).length = chunks.length := by
  induction chunks generalizing i0 with
  | nil => rfl
  | cons c rest ih => simp [batchMsgsFrom, ih]

theorem mem_batchMsgsFrom_elim (tagW sid total : Nat) (chunks : List (List Nat)) (i0 : Nat)
    (m : Nat × List Nat) (hm : m ∈ batchMsgsFrom tagW sid total i0 chunks) :
    ∃ j < chunks.length, m = (tagW, chunks.getD j [] ++ trailer sid (i0 + j) total) := by
  induction chunks generalizing i0 with
  | nil => simp [batchMsgsFrom] at hm
  | cons c rest ih =>
    rw [batchMsgsFrom] at hm
    rcases List.mem_cons.mp hm with hm | hm
    · exact ⟨0, by simp, by simpa using hm⟩
    · obtain ⟨j, hj, hmj⟩ := ih (i0 + 1) hm
      refine ⟨j + 1, by simpa using Nat.succ_lt_succ hj, ?_⟩
      rw [hmj]
      rw [show i0 + 1 + j = i0 + (j + 1) from by omega]
      rfl

theorem mem_batchMsgsFrom_intro (tagW sid total : Nat) (chunks : List (List Nat)) (i0 j : Nat)
    (hj : j < chunks.length) :
    (tagW, chunks.getD j [] ++ trailer sid (i0 + j) total) ∈
      batchMsgsFrom tagW sid total i0 chunks := by
  induction chunks generalizing i0 j with
  | nil => simp at hj
  | cons c rest ih =>
    rw [batchMsgsFrom]
    cases j with
    | zero => exact List.mem_cons_self _ _
    | succ j =>
      refine List.mem_cons_of_mem _ ?_
      have hmem := ih (i0 + 1) j (by simpa using Nat.lt_of_succ_lt_succ hj)
      rw [show i0 + 1 + j = i0 + (j + 1) from by omega] at hmem
      exact hmem

theorem keys_batchMsgsFrom (tagW sid total : Nat) (chunks : List (List Nat)) (i0 : Nat)
    (hb : i0 + chunks.length ≤ 4294967296) :
    (batchMsgsFrom tagW sid total i0 chunks).map (fun m => fragBatchIdx m.2)
      = List.range' i0 chunks.length := by
  induction chunks generalizing i0 with
  | nil => rfl
  | cons c rest ih =>
    rw [batchMsgsFrom, List.map_cons, List.length_cons, List.range'_succ]
    simp only [List.length_cons] at hb
    rw [fragBatchIdx_append c sid i0 total (by omega), ih (i0 + 1) (by omega)]

theorem foldl_write_not_mem (msgs : List (Nat × List Nat))
    (init : Nat → Option (List Nat)) (j : Nat)
    (h : ∀ m ∈ msgs, fragBatchIdx m.2 ≠ j) :
    msgs.foldl (fun st m => writeFragment st m.2) init j = init j := by
  induction msgs generalizing init with
  | nil => rfl
  | cons a rest ih =>
    rw [List.foldl_cons, ih _ (fun m hm => h m (List.mem_cons_of_mem a hm))]
    unfold writeFragment
    rw [if_neg (fun hj => h a (List.mem_cons_self a rest) hj.symm)]

theorem foldl_write_of_mem (msgs : List (Nat × List Nat))
    (init : Nat → Option (List Nat)) (m : Nat × List Nat) (hm : m ∈ msgs)
    (hnd : (msgs.map (fun x => fragBatchIdx x.2)).Nodup) :
    msgs.foldl (fun st x => writeFragment st x.2) init (fragBatchIdx m.2)
      = some (fragPayload m.2) := by
  induction msgs generalizing init with
  | nil => simp at hm
  | cons a rest ih =>
    rw [List.map_cons, List.nodup_cons] at hnd
    rw [List.foldl_cons]
    rcases List.mem_cons.mp hm with hm | hm
    · subst hm
      have hner : ∀ x ∈ rest, fragBatchIdx x.2 ≠ fragBatchIdx m.2 := by
        intro x hx hkey
        exact hnd.1 (List.mem_map.mpr ⟨x, hx, hkey⟩)
      rw [foldl_write_not_mem rest (writeFragment init m.2) (fragBatchIdx m.2) hner]
      simp only [writeFragment, if_pos]
    · exact ih (writeFragment init a.2) hm hnd.2

theorem storeFragments_of_mem (msgs : List (Nat × List Nat)) (m : Nat × List Nat)
    (hm : m ∈ msgs) (hnd : (msgs.map (fun x => fragBatchIdx x.2)).Nodup) :
    storeFragments msgs (fragBatchIdx m.2) = some (fragPayload m.2) :=
  foldl_write_of_mem msgs _ m hm hnd

theorem map_getD_range (L : List (List Nat)) :
    (List.range L.length).map (fun i => L.getD i []) = L := by
  induction L with
  | nil => rfl
  | cons c rest ih =>
    rw [List.length_cons, List.range_succ_eq_map, List.map_cons, List.map_map]
    have hcomp : ((fun i => (c :: rest).getD i []) ∘ Nat.succ) = fun i => rest.getD i [] := by
      funext i
      rfl
    rw [hcomp, ih]
    rfl

theorem mem_sendFragmented_elim (offset k sid tag : Nat) (b : List Nat)
    (m : Nat × List Nat) (hm : m ∈ sendFragmented offset k sid tag b) :
    ∃ j < (chunksOf k b).length,
      m = (tag + offset, (chunksOf k b).getD j [] ++ trailer sid j (chunksOf k b).length) := by
  obtain ⟨j, hj, hmj⟩ := mem_batchMsgsFrom_elim _ _ _ _ _ m hm
  refine ⟨j, hj, ?_⟩
  rw [hmj, Nat.zero_add]

theorem mem_sendFragmented_intro (offset k sid tag : Nat) (b : List Nat) (j : Nat)
    (hj : j < (chunksOf k b).length) :
    (tag + offset, (chunksOf k b).getD j [] ++ trailer sid j (chunksOf k b).length)
      ∈ sendFragmented offset k sid tag b := by
  have h := mem_batchMsgsFrom_intro (tag + offset) sid (chunksOf k b).length (chunksOf k b) 0 j hj
  rwa [Nat.zero_add] at h

/-- Claim C3: a payload b longer than maxMsgSize + 3*sizeof(int) is split
into totalBatches batches of at most maxMsgSize payload bytes; every wire
message is its payload slice followed by the 12-byte trailer (send id,
batch index, total batches) under the tag shifted by the fragment offset,
and decoding the wire tag recovers the original tag; once exactly
totalBatches fragments have arrived (in any arrival order), storing each at
its batch index and concatenating the stored buffers in batch order
reproduces b byte for byte. -/
theorem fragmentation_roundtrip (k offset sendId tag : Nat) (b : List Nat)
    (arrivals : List (Nat × List Nat))
    (hk : 0 < k) (hlen : b.length > k + 12)
    (hsid : sendId < 4294967296) (hblen : b.length < 4294967296)
    (hperm : arrivals.Perm (sendFragmented offset k sendId tag b)) :
    (chunksOf k b).length = (b.length + k - 1) / k ∧
    (∀ m ∈ sendFragmented offset k sendId tag b,
      m.1 = tag + offset ∧ offset ≤ m.1 ∧ m.1 - offset = tag ∧
      (fragPayload m.2).length ≤ k ∧
      m.2 = fragPayload m.2 ++ trailer sendId (fragBatchIdx m.2) (chunksOf k b).length ∧
      fragSendId m.2 = sendId ∧
      fragTotal m.2 = (chunksOf k b).length ∧
      fragBatchIdx m.2 < (chunksOf k b).length) ∧
    arrivals.length = (chunksOf k b).length ∧
    assembleFragments (storeFragments arrivals) (chunksOf k b).length = b := by
  have hk0 : k ≠ 0 := Nat.pos_iff_ne_zero.mp hk
  have htot_le : (chunksOf k b).length ≤ b.length := length_chunksOf_le k hk0 b
  have htot : (chunksOf k b).length < 4294967296 := lt_of_le_of_lt htot_le hblen
  refine ⟨length_chunksOf k hk0 b, ?_, ?_, ?_⟩
  · intro m hm
    obtain ⟨j, hj, hmj⟩ := mem_sendFragmented_elim offset k sendId tag b m hm
    subst hmj
    have hjb : j < 4294967296 := lt_trans hj htot
    have hbidx := fragBatchIdx_append ((chunksOf k b).getD j []) sendId j
      (chunksOf k b).length hjb
    have hpl := fragPayload_append ((chunksOf k b).getD j []) sendId j (chunksOf k b).length
    have hcm : (chunksOf k b).getD j [] ∈ chunksOf k b := by
      rw [List.getD_eq_getElem (chunksOf k b) [] hj]
      exact List.getElem_mem hj
    refine ⟨rfl, Nat.le_add_left offset tag, by omega, ?_, ?_, ?_, ?_, ?_⟩
    · rw [hpl]
      exact mem_chunksOf_length_le k b _ hcm
    · rw [hpl, hbidx]
    · exact fragSendId_append _ _ _ _ hsid
    · exact fragTotal_append _ _ _ _ htot
    · rw [hbidx]
      exact hj
  · rw [hperm.length_eq]
    exact length_batchMsgsFrom _ _ _ _ _
  · have hkeys : (sendFragmented offset k sendId tag b).map (fun m => fragBatchIdx m.2)
        = List.range' 0 (chunksOf k b).length :=
      keys_batchMsgsFrom _ _ _ _ 0 (by omega)
    have hndmsgs : ((sendFragmented offset k sendId tag b).map
        (fun m => fragBatchIdx m.2)).Nodup := by
      rw [hkeys]
      exact List.nodup_range' _ _
    have hpm := hperm.map (fun m => fragBatchIdx m.2)
    have hnda : (arrivals.map (fun m => fragBatchIdx m.2)).Nodup :=
      hpm.symm.nodup hndmsgs
    unfold assembleFragments
    have hpt : ∀ i ∈ List.range (chunksOf k b).length,
        (storeFragments arrivals i).getD [] = (chunksOf k b).getD i [] := by
      intro i hi
      have hilt : i < (chunksOf k b).length := List.mem_range.mp hi
      have hmem := mem_sendFragmented_intro offset k sendId tag b i hilt
      have hmema : (tag + offset, (chunksOf k b).getD i []
          ++ trailer sendId i (chunksOf k b).length) ∈ arrivals :=
        (hperm.mem_iff).mpr hmem
      have hst := storeFragments_of_mem arrivals _ hmema hnda
      rw [fragBatchIdx_append _ _ _ _ (lt_trans hilt htot), fragPayload_append] at hst
      rw [hst]
      rfl
    rw [List.map_congr_left hpt, map_getD_range]
    exact flatten_chunksOf k hk0 b

def fragB : List Nat := List.range 16

/-- Claim C3, witness: a 16-byte buffer fragmented with maxMsgSize 2,
fragment offset 100, send id 1 and tag 7, arriving in send order. -/
theorem fragmentation_roundtrip_witness :
    0 < 2 ∧ fragB.length > 2 + 12 ∧ 1 < 4294967296 ∧ fragB.length < 4294967296 ∧
    ((chunksOf 2 fragB).length = (fragB.length + 2 - 1) / 2 ∧
    (∀ m ∈ sendFragmented 100 2 1 7 fragB,
      m.1 = 7 + 100 ∧ 100 ≤ m.1 ∧ m.1 - 100 = 7 ∧
      (fragPayload m.2).length ≤ 2 ∧
      m.2 = fragPayload m.2 ++ trailer 1 (fragBatchIdx m.2) (chunksOf 2 fragB).length ∧
      fragSendId m.2 = 1 ∧
      fragTotal m.2 = (chunksOf 2 fragB).length ∧
      fragBatchIdx m.2 < (chunksOf 2 fragB).length) ∧
    (sendFragmented 100 2 1 7 fragB).length = (chunksOf 2 fragB).length ∧
    assembleFragments (storeFragments (sendFragmented 100 2 1 7 fragB))
      (chunksOf 2 fragB).length = fragB) :=
  ⟨by decide, by decide, by decide, by decide,
   fragmentation_roundtrip 2 100 1 7 fragB (sendFragmented 100 2 1 7 fragB)
     (by decide) (by decide) (by decide) (by decide) (List.Perm.refl _)⟩

/-! ### Power-of-two characterisation of the n AND (n-1) test -/

theorem land_even_odd (a b : Nat) : 2 * a &&& (2 * b + 1) = 2 * (a &&& b) := by
  have h := Nat.land_bit false a true b
  simpa [Nat.bit_val] using h

theorem land_odd_even (a b : Nat) : (2 * a + 1) &&& 2 * b = 2 * (a &&& b) := by
  have h := Nat.land_bit true a false b
  simpa [Nat.bit_val] using h

theorem pow_of_land_pred : ∀ n, 0 < n → n &&& (n - 1) = 0 → ∃ k, n = 2 ^ k := by
  intro n
  induction n using Nat.strong_induction_on with
  | _ n ih =>
    intro hn h
    rcases Nat.even_or_odd n with he | ho
    · obtain ⟨m, hm⟩ := he
      have hm2 : n = 2 * m := by omega
      have hmpos : 0 < m := by omega
      have hsub : n - 1 = 2 * (m - 1) + 1 := by omega
      rw [hsub, hm2, land_even_odd] at h
      have hm0 : m &&& (m - 1) = 0 := by omega
      obtain ⟨k, hk⟩ := ih m (by omega) hmpos hm0
      exact ⟨k + 1, by rw [hm2, hk, pow_succ]; ring⟩
    · obtain ⟨m, hm⟩ := ho
      rcases Nat.eq_zero_or_pos m with hm0 | hmpos
      · exact ⟨0, by omega⟩
      · exfalso
        have hsub : n - 1 = 2 * m := by omega
        rw [hsub, hm, land_odd_even, Nat.and_self] at h
        omega

theorem land_pred_iff (n : Nat) (hn : 0 < n) :
    (n &&& (n - 1) = 0) ↔ ∃ k, n = 2 ^ k := by
  constructor
  · exact pow_of_land_pred n hn
  · rintro ⟨k, rfl⟩
    apply Nat.eq_of_testBit_eq
    intro i
    rw [Nat.testBit_and, Nat.testBit_two_pow, Nat.testBit_two_pow_sub_one, Nat.zero_testBit]
    by_cases hki : k = i
    · subst hki
      simp
    · simp [hki]

/-! ### Worker parameters and the request router (worker.cpp) -/

structure Params where
  reactivationScheduling : Bool
  hopsUntilCollectiveAssignment : Int
  jobCacheSize : Int
  explicitVolumeUpdates : Bool
  monoSet : Bool
  deriving Repr, DecidableEq

inductive BounceAction where
  | toCollAssign
  | forward
  deriving Repr, DecidableEq

structure BounceResult where
  req : JobRequest
  warned : Bool
  action : BounceAction
  deriving Repr, DecidableEq

/-- Worker::bounceJobRequest: increments numHops first; warns iff the new
hop count is at least 512 and n AND (n-1) vanishes; when collective
assignment is enabled (threshold parameter non-negative), the count reached
the threshold, and reactivation scheduling is on or the requested index is
positive, the request goes to the collective assignment component and is
not forwarded; otherwise a next-hop destination is picked and the request
is forwarded (the pseudorandom destination choice is not modelled). -/
def bounceJobRequest (p : Params) (request : JobRequest) : BounceResult :=
  let request1 := { request with numHops := request.numHops + 1 }
  let num := request1.numHops
  let warned := decide (num ≥ 512) && decide (num.toNat &&& (num.toNat - 1) = 0)
  if p.hopsUntilCollectiveAssignment ≥ 0 ∧ num ≥ p.hopsUntilCollectiveAssignment ∧
      (p.reactivationScheduling = true ∨ request1.requestedNodeIndex > 0) then
    { req := request1, warned := warned, action := BounceAction.toCollAssign }
  else
    { req := request1, warned := warned, action := BounceAction.forward }

/-- Claim C5 as stated, as a predicate at one (params, request) input: the
hop count is incremented; the warning fires exactly on power-of-two counts
at least 512; and reaching the threshold with (reactivation scheduling or
positive index) hands the request to collective assignment. -/
def claimC5At (p : Params) (request : JobRequest) : Prop :=
  (bounceJobRequest p request).req.numHops = request.numHops + 1 ∧
  ((bounceJobRequest p request).warned = true ↔
    (512 ≤ (bounceJobRequest p request).req.numHops ∧
      ∃ k : Nat, (bounceJobRequest p request).req.numHops = 2 ^ k)) ∧
  ((p.hopsUntilCollectiveAssignment ≤ (bounceJobRequest p request).req.numHops ∧
      (p.reactivationScheduling = true ∨ request.requestedNodeIndex > 0)) →
    (bounceJobRequest p request).action = BounceAction.toCollAssign)

def paramsC5 : Params :=
  { reactivationScheduling := true, hopsUntilCollectiveAssignment := -1,
    jobCacheSize := 4, explicitVolumeUpdates := false, monoSet := false }

def reqC5 : JobRequest :=
  { jobId := 1, application := 0, rootRank := 0, requestingNodeRank := 2,
    requestedNodeIndex := 1, currentRevision := 0, lastKnownRevision := 0,
    timeOfBirth := 0, numHops := 0, balancingEpoch := 0 }

/-- Claim C5, counterexample: with the collective assignment threshold set
to -1 (disabled) and reactivation scheduling on, the incremented hop count
1 reaches the threshold and the claim demands a hand-off, but the source
additionally requires the threshold to be non-negative and forwards. -/
theorem bounce_c5_counterexample : ¬ claimC5At paramsC5 reqC5 := by
  intro h
  have h3 := h.2.2 ⟨by decide, Or.inl rfl⟩
  exact absurd h3 (by decide)

theorem bounce_req_numHops (p : Params) (request : JobRequest) :
    (bounceJobRequest p request).req.numHops = request.numHops + 1 := by
  simp only [bounceJobRequest]
  split_ifs <;> rfl

theorem bounce_warned_eq (p : Params) (request : JobRequest) :
    (bounceJobRequest p request).warned
      = (decide (request.numHops + 1 ≥ 512) &&
         decide ((request.numHops + 1).toNat &&& ((request.numHops + 1).toNat - 1) = 0)) := by
  simp only [bounceJobRequest]
  split_ifs <;> rfl

theorem bounce_action_iff (p : Params) (request : JobRequest) :
    ((bounceJobRequest p request).action = BounceAction.toCollAssign ↔
      (0 ≤ p.hopsUntilCollectiveAssignment ∧
        p.hopsUntilCollectiveAssignment ≤ request.numHops + 1 ∧
        (p.reactivationScheduling = true ∨ request.requestedNodeIndex > 0))) := by
  simp only [bounceJobRequest]
  split_ifs with hcond
  · exact iff_of_true rfl ⟨hcond.1, hcond.2.1, hcond.2.2⟩
  · refine iff_of_false ?_ (fun hc => hcond ⟨hc.1, hc.2.1, hc.2.2⟩)
    intro hcontra
    simp at hcontra

/-- Claim C5 (amended): every bounce increments numHops by exactly one and
warns exactly on power-of-two hop counts at least 512; the request is
handed to the collective assignment component (and not forwarded) exactly
when additionally the threshold parameter is non-negative (the mechanism is
enabled), the incremented count has reached it, and reactivation scheduling
is on or the requested index is positive. -/
theorem bounce_router_spec (p : Params) (request : JobRequest) :
    (bounceJobRequest p request).req.numHops = request.numHops + 1 ∧
    ((bounceJobRequest p request).warned = true ↔
      (512 ≤ request.numHops + 1 ∧ ∃ k : Nat, request.numHops + 1 = 2 ^ k)) ∧
    ((bounceJobRequest p request).action = BounceAction.toCollAssign ↔
      (0 ≤ p.hopsUntilCollectiveAssignment ∧
        p.hopsUntilCollectiveAssignment ≤ request.numHops + 1 ∧
        (p.reactivationScheduling = true ∨ request.requestedNodeIndex > 0))) := by
  refine ⟨bounce_req_numHops p request, ?_, bounce_action_iff p request⟩
  rw [bounce_warned_eq, Bool.and_eq_true, decide_eq_true_eq, decide_eq_true_eq]
  constructor
  · rintro ⟨h512, hland⟩
    refine ⟨h512, ?_⟩
    obtain ⟨k, hk⟩ := (land_pred_iff (request.numHops + 1).toNat (by omega)).mp hland
    refine ⟨k, ?_⟩
    have h1 : ((request.numHops + 1).toNat : Int) = request.numHops + 1 :=
      Int.toNat_of_nonneg (by omega)
    rw [← h1, hk]
    push_cast
    ring
  · rintro ⟨h512, k, hk⟩
    refine ⟨h512, ?_⟩
    have h2 : (request.numHops + 1).toNat = 2 ^ k := by
      have hc : request.numHops + 1 = ((2 ^ k : Nat) : Int) := by
        rw [hk]
        push_cast
        ring
      omega
    rw [h2]
    exact (land_pred_iff (2 ^ k) (Nat.two_pow_pos k)).mpr ⟨k, rfl⟩

/-! ### Worker job state, tree state and handler events (worker.cpp).

JobDatabase and JobTree internals (job_database.cpp, job_tree.hpp) are not
among the sources; their query results feed the handlers as explicit
inputs, and calls into them are recorded as events. -/

inductive JobState where
  | INACTIVE
  | ACTIVE
  | SUSPENDED
  | PAST
  deriving Repr, DecidableEq

inductive MsgTag where
  | REQUEST_NODE
  | REQUEST_NODE_ONESHOT
  | OFFER_ADOPTION
  | OFFER_ADOPTION_OF_ROOT
  | REJECT_ONESHOT
  | NOTIFY_NODE_LEAVING_JOB
  | NOTIFY_VOLUME_UPDATE
  | QUERY_VOLUME
  | NOTIFY_JOB_ABORTING
  | NOTIFY_JOB_TERMINATING
  | INTERRUPT
  | SEND_JOB_RESULT
  deriving Repr, DecidableEq

structure JobTreeSt where
  index : Int
  parentNodeRank : Int
  rootNodeRank : Int
  hasLeftChild : Bool
  hasRightChild : Bool
  leftChildNodeRank : Int
  rightChildNodeRank : Int
  leftChildIndex : Int
  rightChildIndex : Int
  balancingEpochOfLastRequests : Int
  isWaitingForReactivation : Bool
  isRoot : Bool
  pastChildren : List Int
  deriving Repr, DecidableEq

structure JobSt where
  jobId : Int
  state : JobState
  volume : Int
  hasCommitment : Bool
  tree : JobTreeSt
  deriving Repr, DecidableEq

inductive WEvent where
  | isend (rank : Int) (tag : MsgTag) (payload : List Int)
  | suspendJob (jobId : Int)
  | pruneChild (rank index : Int)
  | spawnRequest (jobId : Int) (left : Bool) (epoch : Int)
  | schedulerUpdateBalancing (epoch volume : Int)
  | bounceRootRequest (req : JobRequest)
  | uncommitJob (jobId : Int)
  | unregisterFromBalancer (jobId : Int)
  | stopWaitingForReactivation (epoch : Int)
  | setWaitingForReactivation (epoch : Int)
  | unsetDesire (left : Bool)
  deriving Repr, DecidableEq

/-- One iteration of the for loop over the two potential children inside
Worker::updateVolume (i = 0 is the left side); returns the events of the
iteration and whether the loop breaks (the dormant root branch). -/
def updateVolumeSide (p : Params) (hasDormantRoot : Bool) (job : JobSt)
    (volume balancingEpoch : Int) (left : Bool) : List WEvent × Bool :=
  let has := if left then job.tree.hasLeftChild else job.tree.hasRightChild
  let nextIndex := if left then job.tree.leftChildIndex else job.tree.rightChildIndex
  let childRank := if left then job.tree.leftChildNodeRank else job.tree.rightChildNodeRank
  if has then
    ((if p.explicitVolumeUpdates then
        [WEvent.isend childRank MsgTag.NOTIFY_VOLUME_UPDATE [job.jobId, volume, balancingEpoch]]
      else []) ++
     (if p.reactivationScheduling = true ∧ nextIndex ≥ volume then
        [WEvent.pruneChild childRank nextIndex]
      else []), false)
  else if nextIndex < volume ∧ job.tree.balancingEpochOfLastRequests < balancingEpoch then
    if hasDormantRoot then
      ([WEvent.suspendJob job.jobId,
        WEvent.isend job.tree.parentNodeRank MsgTag.NOTIFY_NODE_LEAVING_JOB
          [job.jobId, job.tree.index, job.tree.rootNodeRank]], true)
    else
      ((if p.reactivationScheduling = false then
          [WEvent.spawnRequest job.jobId left balancingEpoch]
        else []), false)
  else
    ([WEvent.unsetDesire left], false)

/-- Worker::updateVolume. job.volume is the previous volume of the job; the
emitted events follow program order. -/
def updateVolume (p : Params) (dbHas : Bool) (rootRequest : Option JobRequest)
    (hasDormantRoot : Bool) (job : JobSt) (volume balancingEpoch : Int) : List WEvent :=
  if dbHas = false then
    match rootRequest with
    | some req => [WEvent.bounceRootRequest req]
    | none => []
  else
    WEvent.stopWaitingForReactivation (balancingEpoch - 1) ::
    (if job.state ≠ JobState.ACTIVE then
      (if job.hasCommitment = true ∧ p.reactivationScheduling = true then
        [WEvent.schedulerUpdateBalancing balancingEpoch volume]
      else []) ++
      ((if job.hasCommitment = true ∧ job.tree.index > 0 ∧ job.tree.index ≥ volume then
        [WEvent.uncommitJob job.jobId, WEvent.unregisterFromBalancer job.jobId] ++
        (if p.reactivationScheduling = false then
          [WEvent.isend job.tree.parentNodeRank MsgTag.NOTIFY_NODE_LEAVING_JOB
            [job.jobId, job.tree.index, job.tree.rootNodeRank]]
         else [])
      else []) ++
      (if job.state = JobState.SUSPENDED ∧
          ((job.tree.index < job.volume ∧ job.tree.index < volume ∧
              job.tree.isWaitingForReactivation = true) ∨
           (job.tree.index ≥ job.volume ∧ job.tree.index < volume)) then
        [WEvent.setWaitingForReactivation balancingEpoch]
      else []))
    else
      (if p.reactivationScheduling = true then
        [WEvent.schedulerUpdateBalancing balancingEpoch volume]
      else []) ++
      ((let side0 := updateVolumeSide p hasDormantRoot job volume balancingEpoch true
        if side0.2 then side0.1
        else side0.1 ++ (updateVolumeSide p hasDormantRoot job volume balancingEpoch false).1) ++
      (if job.tree.index > 0 ∧ job.tree.index ≥ volume then
        WEvent.suspendJob job.jobId ::
        (if p.reactivationScheduling = false then
          [WEvent.isend job.tree.parentNodeRank MsgTag.NOTIFY_NODE_LEAVING_JOB
            [job.jobId, job.tree.index, job.tree.rootNodeRank]]
         else [])
      else [])))

/-- Claim C6: updateVolume on a locally present ACTIVE job whose index is
positive and at least the new volume suspends the job, and, when
reactivation scheduling is disabled, sends NOTIFY_NODE_LEAVING_JOB with
(jobId, index, rootRank) to the parent rank. -/
theorem updateVolume_suspends (p : Params) (rootRequest : Option JobRequest)
    (hasDormantRoot : Bool) (job : JobSt) (volume balancingEpoch : Int)
    (hstate : job.state = JobState.ACTIVE)
    (hidx : 0 < job.tree.index) (hvol : volume ≤ job.tree.index) :
    WEvent.suspendJob job.jobId
      ∈ updateVolume p true rootRequest hasDormantRoot job volume balancingEpoch ∧
    (p.reactivationScheduling = false →
      WEvent.isend job.tree.parentNodeRank MsgTag.NOTIFY_NODE_LEAVING_JOB
        [job.jobId, job.tree.index, job.tree.rootNodeRank]
        ∈ updateVolume p true rootRequest hasDormantRoot job volume balancingEpoch) := by
  unfold updateVolume
  rw [if_neg (by simp), if_neg (by simp [hstate])]
  constructor
  · apply List.mem_cons_of_mem
    apply List.mem_append_right
    apply List.mem_append_right
    rw [if_pos ⟨hidx, hvol⟩]
    exact List.mem_cons_self _ _
  · intro hre
    apply List.mem_cons_of_mem
    apply List.mem_append_right
    apply List.mem_append_right
    rw [if_pos ⟨hidx, hvol⟩]
    apply List.mem_cons_of_mem
    rw [if_pos hre]
    exact List.mem_cons_self _ _

def jobC6 : JobSt :=
  { jobId := 5, state := JobState.ACTIVE, volume := 4, hasCommitment := false,
    tree := { index := 3, parentNodeRank := 2, rootNodeRank := 0,
              hasLeftChild := false, hasRightChild := false,
              leftChildNodeRank := -1, rightChildNodeRank := -1,
              leftChildIndex := 7, rightChildIndex := 8,
              balancingEpochOfLastRequests := 0, isWaitingForReactivation := false,
              isRoot := false, pastChildren := [] } }

def paramsC6 : Params :=
  { reactivationScheduling := false, hopsUntilCollectiveAssignment := -1,
    jobCacheSize := 4, explicitVolumeUpdates := false, monoSet := false }

/-- Claim C6, witness: an ACTIVE job at index 3 learning volume 2 with
reactivation scheduling disabled is suspended and notifies its parent. -/
theorem updateVolume_suspends_witness :
    WEvent.suspendJob 5 ∈ updateVolume paramsC6 true none false jobC6 2 1 ∧
    WEvent.isend 2 MsgTag.NOTIFY_NODE_LEAVING_JOB [5, 3, 0]
      ∈ updateVolume paramsC6 true none false jobC6 2 1 := by
  have h := updateVolume_suspends paramsC6 none false jobC6 2 1
    (by decide) (by decide) (by decide)
  exact ⟨h.1, h.2 rfl⟩

/-! ### Worker::interruptJob -/

structure InterruptResult where
  acted : Bool
  msgs : List (Int × MsgTag)
  pastChildrenCleared : Bool
  terminated : Bool
  suspended : Bool
  deriving Repr, DecidableEq

/-- The propagated tag of Worker::interruptJob. -/
def interruptTag (terminate reckless : Bool) : MsgTag :=
  if terminate && reckless then MsgTag.NOTIFY_JOB_ABORTING
  else if terminate then MsgTag.NOTIFY_JOB_TERMINATING
  else MsgTag.INTERRUPT

/-- Worker::interruptJob: returns early for unknown jobs and for
non-terminating interrupts of already suspended jobs; otherwise propagates
the tag to the present children and to every past child, clears the past
children exactly on terminate, and terminates resp. suspends the job. -/
def interruptJob (dbHas : Bool) (job : JobSt) (terminate reckless : Bool) :
    InterruptResult :=
  if dbHas = false then
    { acted := false, msgs := [], pastChildrenCleared := false,
      terminated := false, suspended := false }
  else if terminate = false ∧ job.state = JobState.SUSPENDED then
    { acted := false, msgs := [], pastChildrenCleared := false,
      terminated := false, suspended := false }
  else
    let msgTag := interruptTag terminate reckless
    { acted := true
      msgs := (if job.tree.hasLeftChild then [(job.tree.leftChildNodeRank, msgTag)] else []) ++
        (if job.tree.hasRightChild then [(job.tree.rightChildNodeRank, msgTag)] else []) ++
        job.tree.pastChildren.map (fun r => (r, msgTag))
      pastChildrenCleared := terminate
      terminated := terminate
      suspended := !terminate && decide (job.state = JobState.ACTIVE) }

/-- Claim C8 as stated, at one input: the propagated message reaches every
past child, a past child receives such a message only when terminating, and
the past-children set is cleared exactly on a termination. -/
def claimC8At (dbHas : Bool) (job : JobSt) (terminate reckless : Bool) : Prop :=
  ((interruptJob dbHas job terminate reckless).acted = true →
    ∀ c ∈ job.tree.pastChildren,
      (c, interruptTag terminate reckless) ∈ (interruptJob dbHas job terminate reckless).msgs) ∧
  ((∃ c ∈ job.tree.pastChildren,
      (c, interruptTag terminate reckless) ∈ (interruptJob dbHas job terminate reckless).msgs) →
    terminate = true) ∧
  ((interruptJob dbHas job terminate reckless).pastChildrenCleared = true ↔ terminate = true)

instance (dbHas : Bool) (job : JobSt) (terminate reckless : Bool) :
    Decidable (claimC8At dbHas job terminate reckless) := by
  unfold claimC8At
  infer_instance

def jobC8 : JobSt :=
  { jobId := 9, state := JobState.ACTIVE, volume := 1, hasCommitment := false,
    tree := { index := 1, parentNodeRank := 0, rootNodeRank := 0,
              hasLeftChild := false, hasRightChild := false,
              leftChildNodeRank := -1, rightChildNodeRank := -1,
              leftChildIndex := 3, rightChildIndex := 4,
              balancingEpochOfLastRequests := 0, isWaitingForReactivation := false,
              isRoot := false, pastChildren := [7] } }

/-- Claim C8, counterexample: interrupting (not terminating) an ACTIVE job
with past child 7 sends MSG_INTERRUPT to rank 7 although the job is not
terminating, so past children do not receive propagated messages only on
termination. -/
theorem interrupt_c8_counterexample : ¬ claimC8At true jobC8 false false := by
  decide

/-- Claim C8 (amended): whenever the interruption is propagated at all (the
job is known and the interruption is not ignored), the propagated tag is
sent to every rank of the past-children set, whether or not it terminates;
the past-children set is cleared exactly when the interruption is a
termination; and an interruption is ignored only when it is non-terminating
and the job is already suspended. -/
theorem interrupt_past_children (dbHas : Bool) (job : JobSt) (terminate reckless : Bool)
    (hdb : dbHas = true) :
    ((interruptJob dbHas job terminate reckless).acted = true ↔
      (terminate = true ∨ job.state ≠ JobState.SUSPENDED)) ∧
    ((interruptJob dbHas job terminate reckless).acted = true →
      ∀ c ∈ job.tree.pastChildren,
        (c, interruptTag terminate reckless) ∈ (interruptJob dbHas job terminate reckless).msgs) ∧
    ((interruptJob dbHas job terminate reckless).pastChildrenCleared = true ↔
      ((interruptJob dbHas job terminate reckless).acted = true ∧ terminate = true)) := by
  subst hdb
  unfold interruptJob
  rw [if_neg (by simp)]
  by_cases hig : (terminate = false ∧ job.state = JobState.SUSPENDED)
  · rw [if_pos hig]
    refine ⟨?_, ?_, ?_⟩
    · refine iff_of_false (by simp) ?_
      rintro (ht | hs)
      · rw [hig.1] at ht
        exact Bool.false_ne_true ht
      · exact hs hig.2
    · intro hf
      simp at hf
    · simp
  · rw [if_neg hig]
    refine ⟨?_, ?_, ?_⟩
    · refine iff_of_true rfl ?_
      rcases Bool.eq_false_or_eq_true terminate with ht | ht
      · exact Or.inl ht
      · refine Or.inr (fun hs => hig ⟨ht, hs⟩)
    · intro _ c hc
      apply List.mem_append_right
      exact List.mem_map_of_mem _ hc
    · simp

/-- Claim C8, witness for the amended theorem: terminating the job with
past child 7 reaches rank 7 and clears the set; a plain interrupt of a
suspended job is ignored and clears nothing. -/
theorem interrupt_past_children_witness :
    ((interruptJob true jobC8 true false).acted = true ↔
      (true = true ∨ jobC8.state ≠ JobState.SUSPENDED)) ∧
    ((interruptJob true jobC8 true false).acted = true →
      ∀ c ∈ jobC8.tree.pastChildren,
        (c, interruptTag true false) ∈ (interruptJob true jobC8 true false).msgs) ∧
    ((interruptJob true jobC8 true false).pastChildrenCleared = true ↔
      ((interruptJob true jobC8 true false).acted = true ∧ true = true)) :=
  interrupt_past_children true jobC8 true false rfl

/-! ### Worker::handleRequestNode and Worker::handleRejectOneshot -/

inductive AdoptionResult where
  | ADOPT_FROM_IDLE
  | ADOPT_REPLACE_CURRENT
  | REJECT
  deriving Repr, DecidableEq

inductive JobRequestMode where
  | NORMAL
  | TARGETED_REJOIN
  deriving Repr, DecidableEq

/-- Per-request verdicts of the JobDatabase (job_database.cpp is not among
the sources; its query results enter the handler as explicit inputs). -/
structure WorkerSt where
  params : Params
  globalBalancingEpoch : Int
  requestObsolete : Bool
  adoptionOfferObsolete : Bool
  hasJob : Bool
  jobIsRoot : Bool
  hasInactiveJobsWaitingForReactivation : Bool
  tryAdoptResult : AdoptionResult
  hasDormantJob : Bool
  nextDormantChildRank : Int
  deriving Repr, DecidableEq

inductive RequestNodeOutcome where
  | discarded
  | addedRootRequest
  | stashedFuture (epoch : Int)
  | adopted (offerTag : MsgTag)
  | deferredRootReactivation
  | rejectedOneshot
  | bounced (r : BounceResult)
  deriving Repr, DecidableEq

/-- Worker::handleRequestNode: outcome plus the messages it sends (a none
destination is a rank the model does not track, such as the parent of a
replaced job or the pseudorandom next hop). -/
def handleRequestNode (w : WorkerSt) (req : JobRequest) (mode : JobRequestMode)
    (source : Int) : RequestNodeOutcome × List (Option Int × MsgTag) :=
  if w.requestObsolete = true then (RequestNodeOutcome.discarded, [])
  else if req.requestedNodeIndex = 0 ∧ req.numHops = 0 then
    (RequestNodeOutcome.addedRootRequest, [])
  else if w.globalBalancingEpoch < req.balancingEpoch then
    (RequestNodeOutcome.stashedFuture req.balancingEpoch, [])
  else
    let adoptionResult :=
      if w.params.reactivationScheduling = true ∧ mode ≠ JobRequestMode.TARGETED_REJOIN ∧
          w.hasInactiveJobsWaitingForReactivation = true then
        AdoptionResult.REJECT
      else w.tryAdoptResult
    if adoptionResult = AdoptionResult.ADOPT_FROM_IDLE ∨
        adoptionResult = AdoptionResult.ADOPT_REPLACE_CURRENT then
      let offerTag := if req.requestedNodeIndex = 0 then MsgTag.OFFER_ADOPTION_OF_ROOT
        else MsgTag.OFFER_ADOPTION
      (RequestNodeOutcome.adopted offerTag,
        (if adoptionResult = AdoptionResult.ADOPT_REPLACE_CURRENT then
          [(none, MsgTag.NOTIFY_NODE_LEAVING_JOB)]
         else []) ++
        [(some req.requestingNodeRank, offerTag)])
    else
      if req.requestedNodeIndex = 0 ∧ w.hasJob = true ∧ w.jobIsRoot = true then
        (RequestNodeOutcome.deferredRootReactivation, [])
      else if mode = JobRequestMode.TARGETED_REJOIN then
        (RequestNodeOutcome.rejectedOneshot, [(some source, MsgTag.REJECT_ONESHOT)])
      else
        (RequestNodeOutcome.bounced (bounceJobRequest w.params req),
          if (bounceJobRequest w.params req).action = BounceAction.forward then
            [(none, MsgTag.REQUEST_NODE)]
          else [])

/-- JobDatabase::addFutureRequestMessage: stash a request from a future
balancing epoch. -/
def addFutureRequestMessage (buf : List (Int × JobRequest)) (epoch : Int)
    (req : JobRequest) : List (Int × JobRequest) := buf ++ [(epoch, req)]

/-- Modelled from the spec: JobDatabase::getArrivedFutureRequest
(job_database.cpp is not among the sources) hands out exactly the stashed
requests whose balancing epoch has become the present or a past epoch, and
the balancingDone callback of Worker::Worker re-injects each of them into
handleRequestNode. -/
def balancingDoneReplays (buf : List (Int × JobRequest)) (newEpoch : Int) :
    List JobRequest :=
  (buf.filter (fun pr => pr.1 ≤ newEpoch)).map (fun pr => pr.2)

/-- Claim C7 as stated, at one input: an obsolete request is dropped with no
message, and any non-obsolete request from a future epoch is stashed. -/
def claimC7At (w : WorkerSt) (req : JobRequest) (mode : JobRequestMode) (source : Int) : Prop :=
  (w.requestObsolete = true →
    handleRequestNode w req mode source = (RequestNodeOutcome.discarded, [])) ∧
  (w.requestObsolete = false → w.globalBalancingEpoch < req.balancingEpoch →
    (handleRequestNode w req mode source).1 = RequestNodeOutcome.stashedFuture req.balancingEpoch)

instance (w : WorkerSt) (req : JobRequest) (mode : JobRequestMode) (source : Int) :
    Decidable (claimC7At w req mode source) := by
  unfold claimC7At
  infer_instance

def workerC7 : WorkerSt :=
  { params := paramsC6, globalBalancingEpoch := 0, requestObsolete := false,
    adoptionOfferObsolete := false, hasJob := false, jobIsRoot := false,
    hasInactiveJobsWaitingForReactivation := false,
    tryAdoptResult := AdoptionResult.REJECT, hasDormantJob := false,
    nextDormantChildRank := -1 }

def reqC7 : JobRequest :=
  { jobId := 3, application := 0, rootRank := 1, requestingNodeRank := 1,
    requestedNodeIndex := 0, currentRevision := 0, lastKnownRevision := 0,
    timeOfBirth := 0, numHops := 0, balancingEpoch := 5 }

/-- Claim C7, counterexample: a non-obsolete fresh root request (index 0,
zero hops) from future epoch 5 is put into the root request queue by the
earlier requestedNodeIndex == 0 && numHops == 0 branch, not stashed via
addFutureRequestMessage. -/
theorem requestNode_c7_counterexample :
    ¬ claimC7At workerC7 reqC7 JobRequestMode.NORMAL 2 := by
  decide

/-- Claim C7 (amended): an obsolete request is dropped silently with no
reply and no forwarding; a non-obsolete request that is not a fresh root
request (index 0 with zero hops) and whose balancing epoch exceeds the
current global epoch is stashed via addFutureRequestMessage with no message
sent; and a stashed request is among the requests the balancingDone
callback re-injects into the handler once the new epoch reaches its one. -/
theorem requestNode_obsolete_and_future (w : WorkerSt) (req : JobRequest)
    (mode : JobRequestMode) (source : Int) :
    (w.requestObsolete = true →
      handleRequestNode w req mode source = (RequestNodeOutcome.discarded, [])) ∧
    (w.requestObsolete = false → ¬(req.requestedNodeIndex = 0 ∧ req.numHops = 0) →
      w.globalBalancingEpoch < req.balancingEpoch →
      handleRequestNode w req mode source
        = (RequestNodeOutcome.stashedFuture req.balancingEpoch, [])) ∧
    (∀ (buf : List (Int × JobRequest)) (newEpoch : Int), req.balancingEpoch ≤ newEpoch →
      req ∈ balancingDoneReplays (addFutureRequestMessage buf req.balancingEpoch req) newEpoch) := by
  refine ⟨?_, ?_, ?_⟩
  · intro hobs
    unfold handleRequestNode
    rw [if_pos hobs]
  · intro hobs hroot hfut
    unfold handleRequestNode
    rw [if_neg (by simp [hobs]), if_neg hroot, if_pos hfut]
  · intro buf newEpoch hle
    unfold balancingDoneReplays addFutureRequestMessage
    refine List.mem_map.mpr ⟨(req.balancingEpoch, req), ?_, rfl⟩
    rw [List.filter_append]
    apply List.mem_append_right
    simp [hle]

/-- Claim C7, witness: the obsolete drop, the stash of a future-epoch
non-root request, and its replay at epoch 5, all at concrete inputs. -/
theorem requestNode_obsolete_and_future_witness :
    (handleRequestNode { workerC7 with requestObsolete := true }
        { reqC7 with requestedNodeIndex := 2 } JobRequestMode.NORMAL 2
      = (RequestNodeOutcome.discarded, [])) ∧
    (handleRequestNode workerC7 { reqC7 with requestedNodeIndex := 2 }
        JobRequestMode.NORMAL 2
      = (RequestNodeOutcome.stashedFuture 5, [])) ∧
    { reqC7 with requestedNodeIndex := 2 } ∈
      balancingDoneReplays
        (addFutureRequestMessage [] 5 { reqC7 with requestedNodeIndex := 2 }) 5 := by
  have h1 := requestNode_obsolete_and_future { workerC7 with requestObsolete := true }
    { reqC7 with requestedNodeIndex := 2 } JobRequestMode.NORMAL 2
  have h2 := requestNode_obsolete_and_future workerC7
    { reqC7 with requestedNodeIndex := 2 } JobRequestMode.NORMAL 2
  exact ⟨h1.1 rfl, h2.2.1 rfl (by decide) (by decide), h2.2.2 [] 5 (by decide)⟩

inductive RejectOneshotOutcome where
  | schedulerHandled
  | droppedObsolete
  | oneshotRetry (dest : Int) (req : JobRequest)
  | bounced (r : BounceResult)
  deriving Repr, DecidableEq

/-- Worker::handleRejectOneshot: under reactivation scheduling the local
scheduler takes over; an obsolete offer is dropped; when the hop count
exceeds max(jobCacheSize, 2) or no fitting dormant child remains, numHops
is reset to -1 and the request is re-bounced as a normal hop; otherwise the
next dormant child is queried with an incremented hop count. -/
def handleRejectOneshot (w : WorkerSt) (rej : OneshotJobRequestRejection)
    (source : Int) : RejectOneshotOutcome :=
  let req := rej.request
  if w.params.reactivationScheduling = true then RejectOneshotOutcome.schedulerHandled
  else if w.adoptionOfferObsolete = true then RejectOneshotOutcome.droppedObsolete
  else if req.numHops > max w.params.jobCacheSize 2 then
    RejectOneshotOutcome.bounced (bounceJobRequest w.params { req with numHops := -1 })
  else if w.nextDormantChildRank < 0 ∨ w.nextDormantChildRank = source then
    RejectOneshotOutcome.bounced (bounceJobRequest w.params { req with numHops := -1 })
  else
    RejectOneshotOutcome.oneshotRetry w.nextDormantChildRank
      { req with numHops := req.numHops + 1 }

theorem bounce_req_eq (p : Params) (request : JobRequest) :
    (bounceJobRequest p request).req = { request with numHops := request.numHops + 1 } := by
  simp only [bounceJobRequest]
  split_ifs <;> rfl

/-- Claim C9: when a oneshot rejection converts to normal hopping (hop
count above max(jobCacheSize, 2), or no fitting dormant child) with
reactivation scheduling off and a non-obsolete offer, the handler re-bounces
the request with numHops reset to -1, so the bounce forwards it carrying
numHops 0, discarding the accumulated count; if its requested index is 0,
a receiving worker for which the request is not obsolete classifies it in
the fresh-root branch (addRootRequest) instead of routing or adopting. -/
theorem oneshot_conversion (w w2 : WorkerSt) (rej : OneshotJobRequestRejection)
    (source source2 : Int)
    (hre : w.params.reactivationScheduling = false)
    (hobs : w.adoptionOfferObsolete = false)
    (hconv : rej.request.numHops > max w.params.jobCacheSize 2 ∨
      w.nextDormantChildRank < 0 ∨ w.nextDormantChildRank = source)
    (hidx : rej.request.requestedNodeIndex = 0)
    (hobs2 : w2.requestObsolete = false) :
    handleRejectOneshot w rej source =
      RejectOneshotOutcome.bounced
        (bounceJobRequest w.params { rej.request with numHops := -1 }) ∧
    (bounceJobRequest w.params { rej.request with numHops := -1 }).req.numHops = 0 ∧
    (bounceJobRequest w.params { rej.request with numHops := -1 }).action
      = BounceAction.forward ∧
    (handleRequestNode w2
        (bounceJobRequest w.params { rej.request with numHops := -1 }).req
        JobRequestMode.NORMAL source2).1 = RequestNodeOutcome.addedRootRequest := by
  have hnum : (bounceJobRequest w.params { rej.request with numHops := -1 }).req.numHops = 0 := by
    rw [bounce_req_numHops]
    norm_num
  have hreq := bounce_req_eq w.params { rej.request with numHops := -1 }
  have hridx : (bounceJobRequest w.params { rej.request with numHops := -1 }).req.requestedNodeIndex = 0 := by
    rw [hreq]
    exact hidx
  have hact : (bounceJobRequest w.params { rej.request with numHops := -1 }).action
      = BounceAction.forward := by
    rcases hcase : (bounceJobRequest w.params { rej.request with numHops := -1 }).action with _ | _
    · exfalso
      have hco := (bounce_action_iff w.params { rej.request with numHops := -1 }).mp hcase
      rcases hco.2.2 with hr | hidx2
      · rw [hre] at hr
        exact Bool.false_ne_true hr
      · simp only [hidx] at hidx2
        omega
    · rfl
  refine ⟨?_, hnum, hact, ?_⟩
  · unfold handleRejectOneshot
    rw [if_neg (by simp [hre]), if_neg (by simp [hobs])]
    rcases hconv with hc | hc
    · rw [if_pos hc]
    · by_cases hc1 : rej.request.numHops > max w.params.jobCacheSize 2
      · rw [if_pos hc1]
      · rw [if_neg hc1, if_pos hc]
  · unfold handleRequestNode
    rw [if_neg (by simp [hobs2]), if_pos ⟨hridx, hnum⟩]

def workerC9 : WorkerSt :=
  { params := paramsC6, globalBalancingEpoch := 0, requestObsolete := false,
    adoptionOfferObsolete := false, hasJob := true, jobIsRoot := false,
    hasInactiveJobsWaitingForReactivation := false,
    tryAdoptResult := AdoptionResult.REJECT, hasDormantJob := true,
    nextDormantChildRank := -1 }

def reqC9 : JobRequest :=
  { jobId := 3, application := 0, rootRank := 1, requestingNodeRank := 1,
    requestedNodeIndex := 0, currentRevision := 0, lastKnownRevision := 0,
    timeOfBirth := 0, numHops := 8, balancingEpoch := 0 }

def rejC9 : OneshotJobRequestRejection :=
  { request := reqC9, isChildStillDormant := false }

/-- Claim C9, witness: a rejected oneshot root request with 8 accumulated
hops and no dormant child left converts to a normal hop with numHops 0 and
lands in the fresh-root branch of the receiving handler. -/
theorem oneshot_conversion_witness :
    handleRejectOneshot workerC9 rejC9 3 =
      RejectOneshotOutcome.bounced
        (bounceJobRequest workerC9.params { rejC9.request with numHops := -1 }) ∧
    (bounceJobRequest workerC9.params { rejC9.request with numHops := -1 }).req.numHops = 0 ∧
    (bounceJobRequest workerC9.params { rejC9.request with numHops := -1 }).action
      = BounceAction.forward ∧
    (handleRequestNode workerC7
        (bounceJobRequest workerC9.params { rejC9.request with numHops := -1 }).req
        JobRequestMode.NORMAL 4).1 = RequestNodeOutcome.addedRootRequest :=
  oneshot_conversion workerC9 workerC7 rejC9 3 4 rfl rfl (Or.inr (Or.inl (by decide)))
    (by decide) rfl

/-! ### Query handlers (claim C10) -/

inductive QueryDescOutcome where
  | assertFailUnknownJob
  | sentRevision (dest revision : Int)
  | deferred
  deriving Repr, DecidableEq

/-- Worker::handleQueryJobDescription: asserts that the job is locally
known before any use; answers with the revision if present, else defers. -/
def handleQueryJobDescription (hasJob : Bool) (jobRevision queryRevision : Int)
    (source : Int) : QueryDescOutcome :=
  if hasJob = false then QueryDescOutcome.assertFailUnknownJob
  else if queryRevision ≤ jobRevision then QueryDescOutcome.sentRevision source queryRevision
  else QueryDescOutcome.deferred

inductive QueryResultOutcome where
  | assertFailUnknownJob
  | sentResult (dest : Int)
  deriving Repr, DecidableEq

/-- Worker::handleQueryJobResult: asserts that the job is locally known
before any use; sends the stored result to the querying client. -/
def handleQueryJobResult (hasJob : Bool) (source : Int) : QueryResultOutcome :=
  if hasJob = false then QueryResultOutcome.assertFailUnknownJob
  else QueryResultOutcome.sentResult source

inductive QueryVolumeOutcome where
  | ignoredUnknownJob
  | forwardedToParent
  | answered (dest volume : Int)
  deriving Repr, DecidableEq

/-- Worker::handleQueryVolume: returns silently for an unknown job id;
forwards to the parent while the volume of an active job is unknown;
otherwise answers with the volume. -/
def handleQueryVolume (hasJob : Bool) (state : JobState) (volume parentRank source : Int) :
    QueryVolumeOutcome :=
  if hasJob = false then QueryVolumeOutcome.ignoredUnknownJob
  else if state = JobState.ACTIVE ∧ volume = 0 then QueryVolumeOutcome.forwardedToParent
  else QueryVolumeOutcome.answered source volume

/-- Claim C10: a description or result query for an unknown job id runs
into the assertion (assert(_job_db.has(jobId))) rather than being ignored;
when every such query names a known job the assertion branch is not taken;
handleQueryVolume, in contrast, returns silently for unknown job ids. -/
theorem query_handlers_unknown_job (hasJob : Bool) (jobRevision queryRevision : Int)
    (state : JobState) (volume parentRank source : Int) :
    (hasJob = false →
      handleQueryJobDescription hasJob jobRevision queryRevision source
        = QueryDescOutcome.assertFailUnknownJob ∧
      handleQueryJobResult hasJob source = QueryResultOutcome.assertFailUnknownJob ∧
      handleQueryVolume hasJob state volume parentRank source
        = QueryVolumeOutcome.ignoredUnknownJob) ∧
    (hasJob = true →
      handleQueryJobDescription hasJob jobRevision queryRevision source
        ≠ QueryDescOutcome.assertFailUnknownJob ∧
      handleQueryJobResult hasJob source ≠ QueryResultOutcome.assertFailUnknownJob) := by
  constructor
  · intro hno
    subst hno
    refine ⟨rfl, rfl, rfl⟩
  · intro hyes
    subst hyes
    constructor
    · unfold handleQueryJobDescription
      rw [if_neg (by simp)]
      split_ifs <;> simp
    · unfold handleQueryJobResult
      rw [if_neg (by simp)]
      simp

/-- Claim C10, witness: the three handlers at an unknown job id, and the
description/result handlers at a known one. -/
theorem query_handlers_unknown_job_witness :
    (handleQueryJobDescription false 1 0 6 = QueryDescOutcome.assertFailUnknownJob ∧
     handleQueryJobResult false 6 = QueryResultOutcome.assertFailUnknownJob ∧
     handleQueryVolume false JobState.ACTIVE 0 2 6 = QueryVolumeOutcome.ignoredUnknownJob) ∧
    (handleQueryJobDescription true 1 0 6 ≠ QueryDescOutcome.assertFailUnknownJob ∧
     handleQueryJobResult true 6 ≠ QueryResultOutcome.assertFailUnknownJob) :=
  ⟨(query_handlers_unknown_job false 1 0 JobState.ACTIVE 0 2 6).1 rfl,
   (query_handlers_unknown_job true 1 0 JobState.ACTIVE 0 2 6).2 rfl⟩

end Mallob
